import Mathlib

/-!
Shallow embedding of the tabular data-access and projection logic of
`src/app.py` (a Streamlit presentation front-end for three spreadsheet
files), together with proofs of the specification claims about it.

Tables are modelled as an ordered list of column labels plus an ordered
list of rows of string cells.  The pandas operations the app uses
(boolean-mask filtering, `to_csv`, column renaming, `read_excel` behind a
cache) are embedded as pure functions over this model; the Streamlit
rendering branches are embedded as small view datatypes recording what the
user is shown.
-/

namespace AppendixApp

/-- A loaded table: ordered column labels (label type `κ` is a plain string
for flat headers and a pair of strings for the two-level headers of
Appendix F) and ordered rows of cell values aligned by position.  Cells are
modelled as the strings the spreadsheet holds; numeric cells appear in
their rendered form, so the type-to-string normalization the spec allows is
the identity here. -/
structure Table (κ : Type) where
  cols : List κ
  rows : List (List String)
deriving DecidableEq, Repr

/-- Rectangularity invariant of the data model: every row has one cell per
column. -/
def Table.Rect {κ : Type} (t : Table κ) : Prop :=
  ∀ r ∈ t.rows, r.length = t.cols.length

/-- Cell of row `r` at column position `ci`; out-of-range reads give `""`
(the pipeline only ever uses in-range indices). -/
def cellAt (r : List String) (ci : Nat) : String := r.getD ci ""

/-- Embedding of `df[df[col_key] == value]` (app.py lines 141 and 210):
keep exactly the rows whose cell in the category column position `ci`
equals `value`, in their original order, leaving the column labels
untouched. -/
def filter_by_category {κ : Type} (t : Table κ) (ci : Nat) (v : String) : Table κ :=
  ⟨t.cols, t.rows.filter (fun r => cellAt r ci == v)⟩

/-- Embedding of Python `str.upper()` on one character, for the code points
this data set uses: ASCII letters are upper-cased and the Turkish dotless
`ı` maps to `I`; every other character (including the already-upper-case
dotted `İ`) is returned unchanged, as CPython does on these code points. -/
def pyUpperChar (c : Char) : Char :=
  if c = 'ı' then 'I' else c.toUpper

/-- Embedding of Python `str.upper()`. -/
def pyUpper (s : String) : String := String.mk (s.toList.map pyUpperChar)

/-- Embedding of Python `str.strip()`: drop whitespace from both ends. -/
def pyStrip (s : String) : String :=
  String.mk (((s.toList.dropWhile Char.isWhitespace).reverse.dropWhile
    Char.isWhitespace).reverse)

/-- Embedding of `str(c).upper().strip()` from app.py line 195, applied to
one (flat) column label. -/
def normalizeLabel (s : String) : String := pyStrip (pyUpper s)

/-- Embedding of app.py line 195, the one column-label normalization pass:
`df.columns = [str(c).upper().strip() for c in df.columns]`. -/
def normalizeCols (cols : List String) : List String := cols.map normalizeLabel

/-- Embedding of app.py lines 213-216: starting from an empty list, append
the names TOTAL, MALE, FEMALE in that fixed program order whenever the
(already normalized) column list contains them. -/
def y_columns_base (cols : List String) : List String :=
  ((if cols.contains "TOTAL" then ["TOTAL"] else []) ++
    (if cols.contains "MALE" then ["MALE"] else [])) ++
    (if cols.contains "FEMALE" then ["FEMALE"] else [])

/-- Embedding of app.py line 202: the designated default value column used
by the fallback branch. -/
def col_value : String := "TOTAL"

/-- Embedding of app.py lines 218-220: when no series column was found,
fall back to the designated default value column `col_value` if the column
list has it (`if not y_columns and col_value in df.columns`). -/
def y_columns (cols : List String) : List String :=
  if (y_columns_base cols).isEmpty && cols.contains col_value then [col_value]
  else y_columns_base cols

/-- C1: for every loaded table, category-column position and selected
value, `filter_by_category` returns exactly the row subset whose category
cell equals the value under exact, case-sensitive string comparison, and
when zero rows match it returns an empty table — a value, not an error
(the embedded function is total, as is the pandas mask selection it
embeds). -/
theorem filter_by_category_exact_match {κ : Type} (t : Table κ) (ci : Nat) (v : String) :
    (∀ r, r ∈ (filter_by_category t ci v).rows ↔ r ∈ t.rows ∧ cellAt r ci = v) ∧
    ((∀ r ∈ t.rows, cellAt r ci ≠ v) → filter_by_category t ci v = ⟨t.cols, []⟩) := by
  constructor
  · intro r
    simp [filter_by_category, List.mem_filter]
  · intro h
    simp only [filter_by_category, Table.mk.injEq, true_and]
    rw [List.filter_eq_nil_iff]
    intro r hr
    simpa using h r hr

/-- Closed witness for C1: on a concrete two-row table, filtering by a
value matching no row yields the empty table. -/
theorem filter_by_category_exact_match_witness :
    filter_by_category (⟨["P", "V"], [["X", "1"], ["Y", "2"]]⟩ : Table String) 0 "Z" =
      ⟨["P", "V"], []⟩ :=
  (filter_by_category_exact_match ⟨["P", "V"], [["X", "1"], ["Y", "2"]]⟩ 0 "Z").2
    (by decide)

/-- C10: filtering preserves structure: the result has exactly the input's
columns in the same order, and its rows are exactly the matching rows of
the input, kept in their original relative order with every cell value
unchanged (stated both as an equation with `List.filter` and as the
sublist relation). -/
theorem filter_by_category_preserves_structure {κ : Type} (t : Table κ) (ci : Nat)
    (v : String) :
    (filter_by_category t ci v).cols = t.cols ∧
    (filter_by_category t ci v).rows = t.rows.filter (fun r => cellAt r ci == v) ∧
    (filter_by_category t ci v).rows.Sublist t.rows := by
  refine ⟨rfl, rfl, ?_⟩
  exact List.filter_sublist t.rows

/-- C2: the resolved series-column list consists of exactly those
vocabulary names among TOTAL, MALE, FEMALE that occur in the (normalized)
column list, ordered by the fixed vocabulary order rather than by column
order (it is invariant under permuting the columns); on the scenario table
with headers YEAR, LEVEL, TOTAL, MALE, FEMALE it yields
[TOTAL, MALE, FEMALE]. -/
theorem series_columns_exact_vocab_order :
    (∀ cols : List String,
        y_columns_base cols = ["TOTAL", "MALE", "FEMALE"].filter (fun v => cols.contains v)) ∧
    (∀ cols : List String, ∀ c,
        c ∈ y_columns_base cols ↔ c ∈ (["TOTAL", "MALE", "FEMALE"] : List String) ∧ c ∈ cols) ∧
    (∀ cols cols' : List String, cols.Perm cols' → y_columns_base cols = y_columns_base cols') ∧
    y_columns_base (normalizeCols ["YEAR", "LEVEL", "TOTAL", "MALE", "FEMALE"]) =
      ["TOTAL", "MALE", "FEMALE"] := by
  have hfilter : ∀ cols : List String,
      y_columns_base cols = ["TOTAL", "MALE", "FEMALE"].filter (fun v => cols.contains v) := by
    intro cols
    simp only [y_columns_base, List.filter_cons, List.filter_nil, List.elem_eq_mem]
    by_cases h1 : "TOTAL" ∈ cols <;>
      by_cases h2 : "MALE" ∈ cols <;>
        by_cases h3 : "FEMALE" ∈ cols <;>
          simp [h1, h2, h3]
  refine ⟨hfilter, ?_, ?_, by decide⟩
  · intro cols c
    rw [hfilter]
    simp [List.mem_filter]
  · intro cols cols' hp
    rw [hfilter, hfilter]
    have hfun : (fun v : String => cols.contains v) = fun v => cols'.contains v := by
      funext v
      simp [List.elem_eq_mem, hp.mem_iff]
    rw [hfun]

/-- Closed witness for C2: the permutation clause applied to two concrete
column orders, showing the series order ignores column order. -/
theorem series_columns_exact_vocab_order_witness :
    y_columns_base ["FEMALE", "MALE", "TOTAL"] = y_columns_base ["TOTAL", "MALE", "FEMALE"] :=
  series_columns_exact_vocab_order.2.2.1 ["FEMALE", "MALE", "TOTAL"]
    ["TOTAL", "MALE", "FEMALE"] (by decide)

/-- Header label of a loaded table in label-polymorphic positions: flat
(one string) or the two-level pairs produced by `header=[0, 1]` in
Appendix F. -/
inductive HeaderLabel where
  | flat (s : String)
  | pair (a b : String)
deriving DecidableEq, Repr

/-- Python single-quote character as a string, used when embedding the
`repr` of a tuple and the f-string messages of the app. -/
def sq : String := String.singleton (Char.ofNat 39)

/-- Embedding of Python `str(col)` on a column key (app.py line 131): a
flat label prints as itself; a two-level label is a tuple and prints as its
tuple repr, the two parts single-quoted, comma-space separated, in
parentheses. -/
def strOfLabel : HeaderLabel → String
  | .flat s => s
  | .pair a b => "(" ++ sq ++ a ++ sq ++ ", " ++ sq ++ b ++ sq ++ ")"

/-- Decision procedure for Python `needle in hay` on character lists: some
contiguous run of `hay` equals `needle`. -/
def hasInfix (needle : List Char) : List Char → Bool
  | [] => needle.isEmpty
  | c :: t => needle.isPrefixOf (c :: t) || hasInfix needle t

/-- Embedding of Python substring containment `needle in hay`. -/
def strContains (hay needle : String) : Bool := hasInfix needle.toList hay.toList

/-- Correctness of the substring test: it decides the infix relation on the
underlying character lists. -/
theorem hasInfix_iff (nd hay : List Char) : hasInfix nd hay = true ↔ nd <:+: hay := by
  induction hay with
  | nil =>
      simp [hasInfix, List.isEmpty_iff, List.infix_nil]
  | cons c t ih =>
      simp [hasInfix, List.infix_cons_iff, ih]

/-- The Appendix F province test on one column label (app.py line 131):
`"PROVINCE" in str(col).upper() or "İL" in str(col).upper()`. -/
def isProvinceLabel (col : HeaderLabel) : Bool :=
  strContains (pyUpper (strOfLabel col)) "PROVINCE" ||
    strContains (pyUpper (strOfLabel col)) "İL"

/-- Embedding of app.py lines 128-133 (Appendix F): scan the columns in
order and return the first whose stringified, upper-cased label contains
the token PROVINCE or the Turkish token İL; `none` when no label
matches. -/
def province_col_key (cols : List HeaderLabel) : Option HeaderLabel :=
  cols.find? isProvinceLabel

/-- The Appendix G level/province test on one already-normalized column
name (app.py line 200): `'LEVEL' in c or 'PROVINCE' in c`. -/
def isLevelLabel (c : String) : Bool :=
  strContains c "LEVEL" || strContains c "PROVINCE"

/-- Embedding of app.py line 200 (Appendix G): on the normalized column
names, the first containing LEVEL or PROVINCE as a substring, else
`none`. -/
def col_province (cols : List String) : Option String :=
  cols.find? isLevelLabel

/-- The Appendix F fallback warning text (app.py line 156). -/
def fallbackWarning : String :=
  "Could not automatically detect " ++ sq ++ "Province" ++ sq ++
    " column for filtering. Showing full table below:"

/-- What the Appendix F explorer shows below the download button: the
filtered detail for the selected category value, or the fallback warning
together with the full, unfiltered table. -/
inductive FView where
  | filtered (key : HeaderLabel) (shown : Table HeaderLabel)
  | unfilteredFallback (warning : String) (shown : Table HeaderLabel)
deriving DecidableEq, Repr

/-- Embedding of app.py lines 125-157, the Appendix F explorer: a copy of
the loaded table is scanned for a province-like column; when one is found
the rows are filtered to the selected value and displayed, otherwise the
warning branch shows the full table unchanged. -/
def appendixF_explore (df : Table HeaderLabel) (selected : String) : FView :=
  match province_col_key df.cols with
  | some key => .filtered key (filter_by_category df (df.cols.indexOf key) selected)
  | none => .unfilteredFallback fallbackWarning df

/-- C4: category-column resolution scans the (flattened, stringified)
column labels in column order for a case-insensitive substring match
against the fixed token set — PROVINCE/İL in Appendix F, LEVEL/PROVINCE on
the normalized names in Appendix G — returning the first matching column
and `none` when no label matches; the match only depends on the
upper-cased label (case-insensitivity), and on `none` the Appendix F
caller renders the unfiltered fallback view with the full table instead of
failing. -/
theorem category_column_first_match :
    (∀ cols : List HeaderLabel, ∀ c, province_col_key cols = some c →
        isProvinceLabel c = true ∧
          ∃ pre post, cols = pre ++ c :: post ∧ ∀ x ∈ pre, isProvinceLabel x = false) ∧
    (∀ cols : List HeaderLabel,
        province_col_key cols = none ↔ ∀ c ∈ cols, isProvinceLabel c = false) ∧
    (∀ c1 c2 : HeaderLabel, pyUpper (strOfLabel c1) = pyUpper (strOfLabel c2) →
        isProvinceLabel c1 = isProvinceLabel c2) ∧
    (∀ df : Table HeaderLabel, ∀ selected : String, province_col_key df.cols = none →
        appendixF_explore df selected = .unfilteredFallback fallbackWarning df) ∧
    (∀ cols : List String, ∀ c, col_province cols = some c →
        isLevelLabel c = true ∧
          ∃ pre post, cols = pre ++ c :: post ∧ ∀ x ∈ pre, isLevelLabel x = false) ∧
    (∀ cols : List String, col_province cols = none ↔ ∀ c ∈ cols, isLevelLabel c = false) := by
  refine ⟨?_, ?_, ?_, ?_, ?_, ?_⟩
  · intro cols c h
    have h2 := List.find?_eq_some.mp h
    refine ⟨h2.1, ?_⟩
    obtain ⟨pre, post, hsplit, hpre⟩ := h2.2
    exact ⟨pre, post, hsplit, fun x hx => by simpa using hpre x hx⟩
  · intro cols
    rw [province_col_key, List.find?_eq_none]
    constructor
    · intro h c hc
      simpa using h c hc
    · intro h c hc
      simp [h c hc]
  · intro c1 c2 h
    simp only [isProvinceLabel, strContains, h]
  · intro df selected h
    simp [appendixF_explore, h]
  · intro cols c h
    have h2 := List.find?_eq_some.mp h
    refine ⟨h2.1, ?_⟩
    obtain ⟨pre, post, hsplit, hpre⟩ := h2.2
    exact ⟨pre, post, hsplit, fun x hx => by simpa using hpre x hx⟩
  · intro cols
    rw [col_province, List.find?_eq_none]
    constructor
    · intro h c hc
      simpa using h c hc
    · intro h c hc
      simp [h c hc]

/-- Closed witness for C4: a concrete table with no province-like column is
shown unfiltered with the warning, and on a concrete two-level header the
first PROVINCE match is returned. -/
theorem category_column_first_match_witness :
    (appendixF_explore ⟨[.flat "YEAR"], [["1931"]]⟩ "X" =
      .unfilteredFallback fallbackWarning ⟨[.flat "YEAR"], [["1931"]]⟩) ∧
    (isProvinceLabel (.pair "METADATA" "Province") = true ∧
      ∃ pre post,
        [HeaderLabel.flat "YEAR", .pair "METADATA" "Province"] =
          pre ++ HeaderLabel.pair "METADATA" "Province" :: post ∧
        ∀ x ∈ pre, isProvinceLabel x = false) :=
  ⟨category_column_first_match.2.2.2.1 ⟨[.flat "YEAR"], [["1931"]]⟩ "X" (by decide),
    category_column_first_match.1 [.flat "YEAR", .pair "METADATA" "Province"]
      (.pair "METADATA" "Province") (by decide)⟩

/-- The Appendix G plotting error text (app.py line 235). -/
def noDataMsg : String := "Could not find data columns (TOTAL, MALE, FEMALE) to plot."

/-- Outcome of the Appendix G plotting step (app.py lines 222-235): a line
chart over the listed series columns, or the user-visible error that no
data columns were found. -/
inductive PlotOutcome where
  | chart (series : List String)
  | noDataColumnsError (msg : String)
deriving DecidableEq, Repr

/-- Embedding of app.py lines 222-235: plot when the resolved series list
is non-empty, otherwise report the error. -/
def plot_step (cols : List String) : PlotOutcome :=
  if (y_columns cols).isEmpty then .noDataColumnsError noDataMsg
  else .chart (y_columns cols)

/-- C3 (against the code): the fallback branch of lines 218-220 is
unreachable — `y_columns` always equals `y_columns_base`, because the
designated default `col_value` is the string TOTAL, which is itself the
first vocabulary name, so whenever no series column matched the default
column is absent too.  At the failing input with normalized columns
YEAR, LEVEL, POPULATION the resolution yields no series at all and the
plotting step reports the no-data error instead of falling back to the
single remaining value column POPULATION as the claim describes. -/
theorem series_fallback_unreachable :
    (∀ cols : List String, y_columns cols = y_columns_base cols) ∧
    y_columns ["YEAR", "LEVEL", "POPULATION"] = [] ∧
    plot_step ["YEAR", "LEVEL", "POPULATION"] = .noDataColumnsError noDataMsg := by
  refine ⟨?_, by decide, by decide⟩
  intro cols
  unfold y_columns
  by_cases h : "TOTAL" ∈ cols
  · have hne : (y_columns_base cols).isEmpty = false := by
      simp [y_columns_base, h]
    simp [hne]
  · simp [col_value, h]

/-- Header shape argument of `load_data`: Python `0` (flat) or `[0, 1]`
(two header rows, Appendix F). -/
inductive HeaderArg where
  | flat
  | twoRow
deriving DecidableEq, Repr

/-- Result and user-visible side channel of one `load_data` call: the
value returned to the caller (`some` table, or Python `None` for both the
missing-file and the parse-failure paths) and the `st.error` message shown
from inside the function, if any.  The embedded loader is a total
function: the source guards the read with `os.path.exists` and catches
every parse exception, so no call raises. -/
structure LoadOutcome where
  result : Option (Table HeaderLabel)
  errorShown : Option String
deriving DecidableEq, Repr

/-- Environment model for the loader: whether each file name exists
(`os.path.exists`) and what `pd.read_excel` yields on it for a given
header shape — a parsed table, or a parse failure carrying the exception
text. -/
structure FileSystem where
  exists? : String → Bool
  parse : String → HeaderArg → Except String (Table HeaderLabel)

/-- Embedding of the Python error f-string of app.py line 43: the text
`Error reading file` followed by the quoted file name, a colon, and the
exception text. -/
def readErrMsg (name cause : String) : String :=
  "Error reading file " ++ sq ++ name ++ sq ++ ": " ++ cause

/-- Embedding of app.py lines 30-44 (the body of `load_data`, without the
cache decorator): return `none` for a missing file; parse and return the
table; or catch the parse exception, show its message, and return
`none`. -/
def load_data (fs : FileSystem) (name : String) (h : HeaderArg) : LoadOutcome :=
  if fs.exists? name then
    match fs.parse name h with
    | .ok t => ⟨some t, none⟩
    | .error e => ⟨none, some (readErrMsg name e)⟩
  else ⟨none, none⟩

/-- Logical file name of the Appendix E dataset (app.py line 77). -/
def fileE : String := "all_deaths-by_age_province.xlsx"

/-- Embedding of the missing-file warning f-string (app.py lines 90, 160,
240). -/
def missingMsg (name : String) : String :=
  "⚠️ File " ++ sq ++ name ++ sq ++ " not found. Please ensure it is in the same folder."

/-- What the Appendix E branch renders: the table view with its CSV
download offer, or the missing-file warning. -/
inductive EView where
  | data (shown : Table HeaderLabel)
  | missingFileWarning (msg : String)
deriving DecidableEq, Repr

/-- Embedding of app.py lines 77-90, the Appendix E branch: load the file
and either display the table or fall to the warning state; either way a
view is rendered and the session continues. -/
def appendixE_view (fs : FileSystem) : EView :=
  match (load_data fs fileE .flat).result with
  | some df => .data df
  | none => .missingFileWarning (missingMsg fileE)

/-- C5: when the underlying file does not exist, `load_data` returns the
NotFound signal — Python `None`, with no error message shown — and, being
a total function (the existence check precedes the read and every read
exception is caught), never raises; the Appendix E caller then presents
the graceful missing-file warning rather than crashing. -/
theorem load_missing_file_not_found (fs : FileSystem) (name : String) (h : HeaderArg)
    (hab : fs.exists? name = false) :
    load_data fs name h = ⟨none, none⟩ ∧
    (fs.exists? fileE = false → appendixE_view fs = .missingFileWarning (missingMsg fileE)) := by
  constructor
  · simp [load_data, hab]
  · intro hE
    simp [appendixE_view, load_data, hE]

/-- Closed witness for C5: on an environment with no files at all, loading
the Appendix E file yields NotFound and the view is the warning. -/
theorem load_missing_file_not_found_witness :
    load_data ⟨fun _ => false, fun _ _ => Except.error ""⟩ fileE .flat = ⟨none, none⟩ ∧
    appendixE_view ⟨fun _ => false, fun _ _ => Except.error ""⟩ =
      .missingFileWarning (missingMsg fileE) := by
  have h := load_missing_file_not_found ⟨fun _ => false, fun _ _ => Except.error ""⟩
    fileE .flat rfl
  exact ⟨h.1, h.2 rfl⟩

/-- C6: when the file exists but parsing fails with cause `e`, `load_data`
returns the LoadError signal: result `None` together with a shown
human-readable message containing both the file name and the cause; the
exception is not propagated (the embedded call returns a value), and the
Appendix E caller still renders a view, so the session is not aborted. -/
theorem load_parse_error_surfaced (fs : FileSystem) (name : String) (h : HeaderArg)
    (e : String) (hex : fs.exists? name = true) (hp : fs.parse name h = .error e) :
    load_data fs name h = ⟨none, some (readErrMsg name e)⟩ ∧
    strContains (readErrMsg name e) e = true ∧
    strContains (readErrMsg name e) name = true ∧
    (fs.exists? fileE = true → fs.parse fileE .flat = .error e →
      appendixE_view fs = .missingFileWarning (missingMsg fileE)) := by
  refine ⟨?_, ?_, ?_, ?_⟩
  · simp [load_data, hex, hp]
  · rw [strContains, hasInfix_iff, readErrMsg]
    refine ⟨("Error reading file " ++ sq ++ name ++ sq ++ ": ").toList, [], ?_⟩
    simp [String.toList]
  · rw [strContains, hasInfix_iff, readErrMsg]
    refine ⟨("Error reading file " ++ sq).toList, (sq ++ ": " ++ e).toList, ?_⟩
    simp [String.toList]
  · intro hE hpe
    simp [appendixE_view, load_data, hE, hpe]

/-- Closed witness for C6: a concrete environment in which the Appendix E
file exists but is corrupt; the loader returns the error outcome with the
cause embedded in the message, and the session still renders a view. -/
theorem load_parse_error_surfaced_witness :
    load_data ⟨fun _ => true, fun _ _ => Except.error "bad sheet"⟩ fileE .flat =
      ⟨none, some (readErrMsg fileE "bad sheet")⟩ ∧
    strContains (readErrMsg fileE "bad sheet") "bad sheet" = true ∧
    appendixE_view ⟨fun _ => true, fun _ _ => Except.error "bad sheet"⟩ =
      .missingFileWarning (missingMsg fileE) := by
  have h := load_parse_error_surfaced ⟨fun _ => true, fun _ _ => Except.error "bad sheet"⟩
    fileE .flat "bad sheet" rfl rfl
  exact ⟨h.1, h.2.1, h.2.2.2 rfl rfl⟩

/-- Process-lifetime cache state installed by the `@st.cache_data`
decorator on `load_data` (app.py line 29): an association list from call
arguments — the `(file_name, header_arg)` pair — to stored outcomes. -/
structure CacheState where
  entries : List ((String × HeaderArg) × LoadOutcome)
deriving DecidableEq, Repr

/-- Result of one call through the cache wrapper: the outcome handed to
the caller, the cache state afterwards, and whether storage was read (a
miss running the wrapped function body). -/
structure CachedCall where
  outcome : LoadOutcome
  cache : CacheState
  readStorage : Bool
deriving DecidableEq, Repr

/-- Embedding of the `@st.cache_data` wrapper semantics around
`load_data`: on a hit for the argument key, return the stored outcome
without touching storage; on a miss, run the body, store its outcome under
the key, and report a storage read. -/
def cached_load (fs : FileSystem) (c : CacheState) (name : String) (h : HeaderArg) :
    CachedCall :=
  match c.entries.find? (fun ent => ent.1 == (name, h)) with
  | some ent => ⟨ent.2, c, false⟩
  | none =>
      let v := load_data fs name h
      ⟨v, ⟨((name, h), v) :: c.entries⟩, true⟩

/-- C7: the cached loader is idempotent and storage-free on repetition:
from any cache state, calling twice with identical arguments yields
identical outcomes — in particular row-for-row, column-for-column equal
tables, since the outcomes are equal as values — and the second call does
not re-read storage. -/
theorem cached_load_idempotent (fs : FileSystem) (c : CacheState) (name : String)
    (h : HeaderArg) :
    (cached_load fs (cached_load fs c name h).cache name h).outcome =
      (cached_load fs c name h).outcome ∧
    (cached_load fs (cached_load fs c name h).cache name h).readStorage = false := by
  unfold cached_load
  cases hfind : c.entries.find? (fun ent => ent.1 == (name, h)) with
  | some ent => simp [hfind]
  | none => simp [hfind, List.find?_cons]

/-- Does a CSV field need quoting under the minimal-quoting rule pandas
`to_csv` uses: it contains the separator, the quote character, or a line
break. -/
def needsQuote (f : List Char) : Bool :=
  f.any (fun c => c == ',' || c == '"' || c == '\n' || c == '\r')

/-- The CSV escape: double every quote character of the field body. -/
def escapeQuotes : List Char → List Char
  | [] => []
  | c :: cs => if c = '"' then '"' :: '"' :: escapeQuotes cs else c :: escapeQuotes cs

/-- Serialize one field: quoted with escaped body when needed, verbatim
otherwise. -/
def renderField (f : List Char) : List Char :=
  if needsQuote f then '"' :: (escapeQuotes f ++ ['"']) else f

/-- Serialize one record: comma-separated fields, newline-terminated. -/
def renderFields : List (List Char) → List Char
  | [] => ['\n']
  | [f] => renderField f ++ ['\n']
  | f :: f2 :: rest => renderField f ++ ',' :: renderFields (f2 :: rest)

/-- Serialize a record sequence. -/
def renderRecords : List (List (List Char)) → List Char
  | [] => []
  | r :: rs => renderFields r ++ renderRecords rs

/-- Embedding of `df.to_csv(index=False)` (app.py lines 82 and 178): the
header labels as the first record, then the rows, in the delimited text
format with minimal quoting.  Numeric cells are already strings in the
model, so the type-to-string normalization the round-trip claim allows is
the identity here. -/
def to_delimited_text (t : Table String) : String :=
  String.mk (renderRecords ((t.cols :: t.rows).map (fun r => r.map String.toList)))

/-- Parser state of the delimited-text reader: completed records (in
reverse), completed fields of the current record (in reverse), and the
scanning mode — at a field boundary, inside an unquoted field, inside a
quoted field, or just after a quote character while inside a quoted field
— with the current field accumulated in reverse. -/
inductive PState where
  | start (done : List (List (List Char))) (row : List (List Char))
  | raw (done : List (List (List Char))) (row : List (List Char)) (cur : List Char)
  | quoted (done : List (List (List Char))) (row : List (List Char)) (cur : List Char)
  | afterQ (done : List (List (List Char))) (row : List (List Char)) (cur : List Char)
  | bad
deriving DecidableEq, Repr

/-- One character of CSV scanning. -/
def pstep (s : PState) (c : Char) : PState :=
  match s with
  | .start done row =>
      if c = ',' then .start done ([] :: row)
      else if c = '\n' then .start ((([] : List Char) :: row).reverse :: done) []
      else if c = '"' then .quoted done row []
      else .raw done row [c]
  | .raw done row cur =>
      if c = ',' then .start done (cur.reverse :: row)
      else if c = '\n' then .start ((cur.reverse :: row).reverse :: done) []
      else .raw done row (c :: cur)
  | .quoted done row cur =>
      if c = '"' then .afterQ done row cur
      else .quoted done row (c :: cur)
  | .afterQ done row cur =>
      if c = '"' then .quoted done row ('"' :: cur)
      else if c = ',' then .start done (cur.reverse :: row)
      else if c = '\n' then .start ((cur.reverse :: row).reverse :: done) []
      else .bad
  | .bad => .bad

/-- Accept only inputs that end cleanly at a record boundary (every record
newline-terminated, no dangling quote), and return the records. -/
def pfinal : PState → Option (List (List (List Char)))
  | .start done [] => some done.reverse
  | _ => none

/-- Re-parse delimited text into records of string cells. -/
def parse_delimited (s : String) : Option (List (List String)) :=
  (pfinal (s.toList.foldl pstep (.start [] []))).map
    (fun rs => rs.map (fun r => r.map String.mk))

/-- Characterization of fields that stay unquoted. -/
theorem needsQuote_eq_false_iff (f : List Char) :
    needsQuote f = false ↔ ∀ c ∈ f, c ≠ ',' ∧ c ≠ '"' ∧ c ≠ '\n' ∧ c ≠ '\r' := by
  simp [needsQuote, List.any_eq_false, not_or, and_assoc]

/-- Scanning a run of ordinary characters extends the current unquoted
field. -/
theorem foldl_pstep_raw :
    ∀ f : List Char, (∀ c ∈ f, c ≠ ',' ∧ c ≠ '"' ∧ c ≠ '\n' ∧ c ≠ '\r') →
      ∀ (done : List (List (List Char))) (row : List (List Char)) (cur s : List Char),
        List.foldl pstep (.raw done row cur) (f ++ s) =
          List.foldl pstep (.raw done row (f.reverse ++ cur)) s
  | [], _, done, row, cur, s => by simp
  | c :: f', hf, done, row, cur, s => by
      have h1 : c ≠ ',' := (hf c (by simp)).1
      have h3 : c ≠ '\n' := (hf c (by simp)).2.2.1
      have hstep : pstep (.raw done row cur) c = .raw done row (c :: cur) := by
        simp [pstep, h1, h3]
      simp only [List.cons_append, List.foldl_cons, hstep]
      rw [foldl_pstep_raw f' (fun x hx => hf x (by simp [hx])) done row (c :: cur) s]
      simp

/-- Scanning the escaped body of a quoted field extends the current quoted
field. -/
theorem foldl_pstep_quoted :
    ∀ f : List Char, ∀ (done : List (List (List Char))) (row : List (List Char))
      (cur s : List Char),
      List.foldl pstep (.quoted done row cur) (escapeQuotes f ++ s) =
        List.foldl pstep (.quoted done row (f.reverse ++ cur)) s
  | [], done, row, cur, s => by simp [escapeQuotes]
  | c :: f', done, row, cur, s => by
      by_cases hc : c = '"'
      · subst hc
        have he : escapeQuotes ('"' :: f') = '"' :: '"' :: escapeQuotes f' := by
          simp [escapeQuotes]
        rw [he]
        simp only [List.cons_append, List.foldl_cons]
        have h1 : pstep (.quoted done row cur) '"' = .afterQ done row cur := by
          simp [pstep]
        have h2 : pstep (.afterQ done row cur) '"' = .quoted done row ('"' :: cur) := by
          simp [pstep]
        rw [h1, h2, foldl_pstep_quoted f' done row ('"' :: cur) s]
        simp
      · have he : escapeQuotes (c :: f') = c :: escapeQuotes f' := by
          simp [escapeQuotes, hc]
        rw [he]
        simp only [List.cons_append, List.foldl_cons]
        have h1 : pstep (.quoted done row cur) c = .quoted done row (c :: cur) := by
          simp [pstep, hc]
        rw [h1, foldl_pstep_quoted f' done row (c :: cur) s]
        simp

/-- Scanning one rendered field followed by a comma completes that field
and returns to the boundary state. -/
theorem foldl_pstep_field_comma (f : List Char) (done : List (List (List Char)))
    (row : List (List Char)) (s : List Char) :
    List.foldl pstep (.start done row) (renderField f ++ ',' :: s) =
      List.foldl pstep (.start done (f :: row)) s := by
  by_cases hq : needsQuote f = true
  · have hr : renderField f = '"' :: (escapeQuotes f ++ ['"']) := by
      simp [renderField, hq]
    rw [hr]
    simp only [List.cons_append, List.foldl_cons, List.append_assoc, List.singleton_append]
    have h1 : pstep (.start done row) '"' = .quoted done row [] := by simp [pstep]
    simp only [List.nil_append]
    rw [h1, foldl_pstep_quoted f done row []]
    simp [pstep]
  · have hq' : needsQuote f = false := by simpa using hq
    have hr : renderField f = f := by simp [renderField, hq']
    rw [hr]
    have hchars := (needsQuote_eq_false_iff f).mp hq'
    cases f with
    | nil => simp [pstep]
    | cons c f' =>
        have h1 : c ≠ ',' := (hchars c (by simp)).1
        have h2 : c ≠ '"' := (hchars c (by simp)).2.1
        have h3 : c ≠ '\n' := (hchars c (by simp)).2.2.1
        have hstep : pstep (.start done row) c = .raw done row [c] := by
          simp [pstep, h1, h2, h3]
        simp only [List.cons_append, List.foldl_cons, hstep]
        rw [foldl_pstep_raw f' (fun x hx => hchars x (by simp [hx])) done row [c] (',' :: s)]
        simp [pstep]

/-- Scanning one rendered field followed by a newline completes the field
and the current record. -/
theorem foldl_pstep_field_nl (f : List Char) (done : List (List (List Char)))
    (row : List (List Char)) (s : List Char) :
    List.foldl pstep (.start done row) (renderField f ++ '\n' :: s) =
      List.foldl pstep (.start ((f :: row).reverse :: done) []) s := by
  by_cases hq : needsQuote f = true
  · have hr : renderField f = '"' :: (escapeQuotes f ++ ['"']) := by
      simp [renderField, hq]
    rw [hr]
    simp only [List.cons_append, List.foldl_cons, List.append_assoc, List.singleton_append]
    have h1 : pstep (.start done row) '"' = .quoted done row [] := by simp [pstep]
    simp only [List.nil_append]
    rw [h1, foldl_pstep_quoted f done row []]
    simp [pstep]
  · have hq' : needsQuote f = false := by simpa using hq
    have hr : renderField f = f := by simp [renderField, hq']
    rw [hr]
    have hchars := (needsQuote_eq_false_iff f).mp hq'
    cases f with
    | nil => simp [pstep]
    | cons c f' =>
        have h1 : c ≠ ',' := (hchars c (by simp)).1
        have h2 : c ≠ '"' := (hchars c (by simp)).2.1
        have h3 : c ≠ '\n' := (hchars c (by simp)).2.2.1
        have hstep : pstep (.start done row) c = .raw done row [c] := by
          simp [pstep, h1, h2, h3]
        simp only [List.cons_append, List.foldl_cons, hstep]
        rw [foldl_pstep_raw f' (fun x hx => hchars x (by simp [hx])) done row [c] ('\n' :: s)]
        simp [pstep]

/-- Scanning one rendered record from a boundary completes that record. -/
theorem foldl_pstep_record :
    ∀ fields : List (List Char), fields ≠ [] →
      ∀ (done : List (List (List Char))) (row : List (List Char)) (s : List Char),
        List.foldl pstep (.start done row) (renderFields fields ++ s) =
          List.foldl pstep (.start ((row.reverse ++ fields) :: done) []) s
  | [], h, _, _, _ => absurd rfl h
  | [f], _, done, row, s => by
      have hr : renderFields [f] = renderField f ++ ['\n'] := rfl
      rw [hr, List.append_assoc, List.singleton_append, foldl_pstep_field_nl]
      simp
  | f :: f2 :: rest, _, done, row, s => by
      have hr : renderFields (f :: f2 :: rest) = renderField f ++ ',' :: renderFields (f2 :: rest) := rfl
      rw [hr, List.append_assoc, List.cons_append, foldl_pstep_field_comma]
      rw [foldl_pstep_record (f2 :: rest) (by simp) done (f :: row) s]
      simp

/-- Scanning a rendered record sequence from a boundary yields all its
records. -/
theorem foldl_pstep_records :
    ∀ rs : List (List (List Char)), (∀ r ∈ rs, r ≠ []) →
      ∀ done : List (List (List Char)),
        List.foldl pstep (.start done []) (renderRecords rs) =
          .start (rs.reverse ++ done) []
  | [], _, done => by simp [renderRecords]
  | r :: rs, h, done => by
      have hr : renderRecords (r :: rs) = renderFields r ++ renderRecords rs := rfl
      rw [hr, foldl_pstep_record r (h r (by simp)) done []]
      simp only [List.reverse_nil, List.nil_append]
      rw [foldl_pstep_records rs (fun x hx => h x (by simp [hx])) (r :: done)]
      simp

/-- Rebuilding a string from its characters is the identity. -/
theorem mk_toList (s : String) : String.mk s.toList = s := rfl

/-- Record-level round trip of the delimited format: serializing any
sequence of nonempty records and re-parsing it returns exactly those
records. -/
theorem parse_render_records (recs : List (List String)) (hne : ∀ r ∈ recs, r ≠ []) :
    parse_delimited (String.mk (renderRecords (recs.map (fun r => r.map String.toList)))) =
      some recs := by
  unfold parse_delimited
  have htl : (String.mk (renderRecords (recs.map (fun r => r.map String.toList)))).toList =
      renderRecords (recs.map (fun r => r.map String.toList)) := rfl
  rw [htl]
  have hne' : ∀ r ∈ recs.map (fun r => r.map String.toList), r ≠ [] := by
    intro r hmem
    rcases List.mem_map.mp hmem with ⟨r0, hr0, rfl⟩
    simpa using hne r0 hr0
  rw [foldl_pstep_records _ hne' []]
  simp only [pfinal, List.append_nil, List.reverse_reverse, Option.map_some]
  have hid : ∀ l : List String, l.map (String.mk ∘ String.toList) = l := fun l => by
    induction l with
    | nil => rfl
    | cons a l ih => simp [ih, mk_toList, Function.comp]
  have hid2 : ∀ L : List (List String), L.map (List.map (String.mk ∘ String.toList)) = L :=
    fun L => by
      induction L with
      | nil => rfl
      | cons r L ih => simp [ih, hid r]
  simp [List.map_map, hid, hid2]

/-- Attach the default integer row index (0, 1, 2, ...) as the leading
field of every data row, as `to_csv(index=True)` emits a default range
index. -/
def indexRows (i : Nat) : List (List String) → List (List String)
  | [] => []
  | r :: rs => (toString i :: r) :: indexRows (i + 1) rs

/-- Embedding of `df.to_csv(index=True)` (app.py line 107) on the
Appendix F table, whose two-level column labels are typed as string
pairs: one header record per column level — the level's labels preceded
by the empty field standing for the unnamed index — followed by the data
rows, each preceded by its integer row index.  The level names and the
range index are unnamed, so pandas writes the index-name fields empty and
emits no extra index-label record. -/
def to_delimited_text_indexed (t : Table (String × String)) : String :=
  String.mk (renderRecords
    ((("" :: t.cols.map Prod.fst) :: ("" :: t.cols.map Prod.snd) ::
      indexRows 0 t.rows).map (fun r => r.map String.toList)))

/-- Interpretation of re-parsed indexed records as a two-level table, the
way reading them back with two header rows and the first column as index
does: the first two records carry the level labels (leading index-name
field dropped, levels zipped back into pairs) and the remaining records
are the rows with the leading index field dropped. -/
def recordsToIndexedTable (recs : List (List String)) : Option (Table (String × String)) :=
  match recs with
  | top :: sub :: rows => some ⟨top.tail.zip sub.tail, rows.map List.tail⟩
  | _ => none

/-- Indexed rows are never empty records: each starts with its index
field. -/
theorem indexRows_ne_nil :
    ∀ (i : Nat) (rows : List (List String)), ∀ r ∈ indexRows i rows, r ≠ []
  | _, [], _, hr => absurd hr (by simp [indexRows])
  | i, r0 :: rs, r, hr => by
      rcases List.mem_cons.mp hr with h | h
      · simp [h]
      · exact indexRows_ne_nil (i + 1) rs r h

/-- Dropping the leading index field recovers the original rows. -/
theorem indexRows_map_tail :
    ∀ (i : Nat) (rows : List (List String)), (indexRows i rows).map List.tail = rows
  | _, [] => rfl
  | i, r :: rs => by simp [indexRows, indexRows_map_tail (i + 1) rs]

/-- Zipping the two label-level projections recovers the pair labels. -/
theorem zip_map_fst_snd (l : List (String × String)) :
    (l.map Prod.fst).zip (l.map Prod.snd) = l := by
  induction l with
  | nil => rfl
  | cons p l ih => simp [ih]

/-- C8: exporting a loaded table and re-parsing the resulting delimited
text yields the same cell values, for both export shapes the app uses.
The flat `index=False` export (lines 82, 178) re-parses to exactly the
header record followed by the data rows; the two-level `index=True`
export of Appendix F (line 107) re-parses to the two level-label records
and the index-prefixed rows, from which the original two-level table —
every label pair and every cell — is recovered exactly.  Cells are
strings in the model, so the type-to-string normalization the claim
allows is the identity. -/
theorem to_delimited_text_roundtrip (t : Table String) (t2 : Table (String × String))
    (hc : t.cols ≠ []) (hr : ∀ r ∈ t.rows, r ≠ []) :
    parse_delimited (to_delimited_text t) = some (t.cols :: t.rows) ∧
    parse_delimited (to_delimited_text_indexed t2) =
      some (("" :: t2.cols.map Prod.fst) :: ("" :: t2.cols.map Prod.snd) ::
        indexRows 0 t2.rows) ∧
    (parse_delimited (to_delimited_text_indexed t2)).bind recordsToIndexedTable =
      some t2 := by
  have h1 : parse_delimited (to_delimited_text t) = some (t.cols :: t.rows) := by
    apply parse_render_records
    intro r hmem
    rcases List.mem_cons.mp hmem with h | h
    · subst h
      exact hc
    · exact hr r h
  have h2 : parse_delimited (to_delimited_text_indexed t2) =
      some (("" :: t2.cols.map Prod.fst) :: ("" :: t2.cols.map Prod.snd) ::
        indexRows 0 t2.rows) := by
    apply parse_render_records
    intro r hmem
    rcases List.mem_cons.mp hmem with h | h
    · simp [h]
    · rcases List.mem_cons.mp h with h' | h'
      · simp [h']
      · exact indexRows_ne_nil 0 t2.rows r h'
  refine ⟨h1, h2, ?_⟩
  rw [h2]
  simp [recordsToIndexedTable, zip_map_fst_snd, indexRows_map_tail]

/-- Closed witness for C8: a concrete flat table whose cells exercise the
delimiter, the quote character and the empty cell survives the flat round
trip, and a concrete two-level table with quoted labels survives the
indexed round trip back to the identical table. -/
theorem to_delimited_text_roundtrip_witness :
    parse_delimited (to_delimited_text
        ⟨["YEAR", "NOTES"], [["1931", "a,b"], ["1932", "q\"d"], ["1933", ""]]⟩) =
      some [["YEAR", "NOTES"], ["1931", "a,b"], ["1932", "q\"d"], ["1933", ""]] ∧
    (parse_delimited (to_delimited_text_indexed
        ⟨[("METADATA", "PROVINCE"), ("STEP 1", "CENSUS, TOTAL")],
          [["Ankara", "10"], ["İstanbul", "2,5"]]⟩)).bind recordsToIndexedTable =
      some ⟨[("METADATA", "PROVINCE"), ("STEP 1", "CENSUS, TOTAL")],
        [["Ankara", "10"], ["İstanbul", "2,5"]]⟩ :=
  ⟨(to_delimited_text_roundtrip
      ⟨["YEAR", "NOTES"], [["1931", "a,b"], ["1932", "q\"d"], ["1933", ""]]⟩
      ⟨[("METADATA", "PROVINCE"), ("STEP 1", "CENSUS, TOTAL")],
        [["Ankara", "10"], ["İstanbul", "2,5"]]⟩
      (by decide) (by decide)).1,
    (to_delimited_text_roundtrip
      ⟨["YEAR", "NOTES"], [["1931", "a,b"], ["1932", "q\"d"], ["1933", ""]]⟩
      ⟨[("METADATA", "PROVINCE"), ("STEP 1", "CENSUS, TOTAL")],
        [["Ankara", "10"], ["İstanbul", "2,5"]]⟩
      (by decide) (by decide)).2.2⟩

/-- Embedding of app.py line 195 as a table-level operation: replace every
column label by its stringified, upper-cased, stripped form; the rows are
left untouched (the normalization is label-only). -/
def normalizeTable (t : Table HeaderLabel) : Table HeaderLabel :=
  ⟨t.cols.map (fun c => .flat (normalizeLabel (strOfLabel c))), t.rows⟩

/-- Identity-aware heap of the live table objects of one script run:
position = object identity, value = the object's current table state.
Position 0 is the object the loader returned. -/
abbrev Heap := List (Table HeaderLabel)

/-- One table-affecting operation of a rendering script.  `alloc` computes
a new object from an existing one — the pandas idioms the app uses that
return fresh objects: `df.copy()` and boolean-mask selection — while
`store` overwrites an existing object in place; the only in-place pandas
idiom in the app is assignment to `df.columns`.  Read-only uses
(`st.dataframe`, `to_csv`, `unique`, `px.line`) touch no table object and
contribute no operation. -/
inductive HeapOp where
  | alloc (src : Nat) (f : Table HeaderLabel → Table HeaderLabel)
  | store (tgt : Nat) (f : Table HeaderLabel → Table HeaderLabel)

/-- Effect of one operation on the heap. -/
def applyOp (h : Heap) (op : HeapOp) : Heap :=
  match op with
  | .alloc src f => h ++ [f (h.getD src ⟨[], []⟩)]
  | .store tgt f => h.set tgt (f (h.getD tgt ⟨[], []⟩))

/-- Run a script's table-affecting operations in program order. -/
def runOps (h : Heap) (ops : List HeapOp) : Heap := ops.foldl applyOp h

/-- Table-affecting operations of the Appendix G branch after its load, in
program order: the column-label normalization of line 195 mutating the
loaded object in place, then the mask filtering of line 210 allocating a
new object from it (lines 174 and 178 display and export without any
table operation). -/
def appendixG_ops (ci : Nat) (v : String) : List HeapOp :=
  [.store 0 normalizeTable, .alloc 0 (fun t => filter_by_category t ci v)]

/-- Table-affecting operations of the Appendix F branch after its load:
the `df.copy()` of line 125 allocating object 1, then the mask filtering
of line 141 allocating object 2 from the copy (line 107 exports without a
table operation). -/
def appendixF_ops (ci : Nat) (v : String) : List HeapOp :=
  [.alloc 0 (fun t => t), .alloc 1 (fun t => filter_by_category t ci v)]

/-- Table-affecting operations of the Appendix E branch after its load:
none — it only displays and exports. -/
def appendixE_ops : List HeapOp := []

/-- C9: no downstream stage mutates the loader's table in place except the
single column-label normalization: in the Appendix G trace the only
`store` is the label normalization of the loaded object, the Appendix F
and E traces contain no `store` at all, the loaded object ends the
Appendix G run holding exactly its label-normalized state — whose rows are
untouched — and ends the Appendix F run unchanged, with every other stage
having produced a new object (the F heap grows from one object to
three). -/
theorem no_mutation_after_load (t : Table HeaderLabel) (ci : Nat) (v : String) :
    (∀ op ∈ appendixG_ops ci v, ∀ tgt f, op = .store tgt f →
        tgt = 0 ∧ f = normalizeTable) ∧
    (∀ op ∈ appendixF_ops ci v ++ appendixE_ops, ∀ tgt f, op ≠ .store tgt f) ∧
    (runOps [t] (appendixG_ops ci v)).getD 0 ⟨[], []⟩ = normalizeTable t ∧
    (normalizeTable t).rows = t.rows ∧
    (runOps [t] (appendixF_ops ci v)).getD 0 ⟨[], []⟩ = t ∧
    (runOps [t] (appendixF_ops ci v)).length = 3 := by
  refine ⟨?_, ?_, rfl, rfl, rfl, rfl⟩
  · intro op hop tgt f heq
    rcases hop with _ | ⟨_, hop⟩
    · cases heq
      exact ⟨rfl, rfl⟩
    · rcases hop with _ | ⟨_, hop⟩
      · cases heq
      · cases hop
  · intro op hop tgt f heq
    subst heq
    simp [appendixF_ops, appendixE_ops] at hop

/-- Closed witness for C9: the trace clause instantiated at the concrete
store, and the final state of the loader's object on a concrete run. -/
theorem no_mutation_after_load_witness :
    ((0 : Nat) = 0 ∧ normalizeTable = normalizeTable) ∧
    (runOps [⟨[.flat "Year"], [["1931"]]⟩] (appendixG_ops 0 "X")).getD 0 ⟨[], []⟩ =
      normalizeTable ⟨[.flat "Year"], [["1931"]]⟩ :=
  ⟨(no_mutation_after_load ⟨[.flat "Year"], [["1931"]]⟩ 0 "X").1
      (.store 0 normalizeTable) (by simp [appendixG_ops]) 0 normalizeTable rfl,
    (no_mutation_after_load ⟨[.flat "Year"], [["1931"]]⟩ 0 "X").2.2.1⟩

end AppendixApp
